import Mathlib

/-!
# Verification of the ImmobilienScout24 scraper core

A shallow embedding of the two subsystems of the repository that the claims
are about:

* the OAuth 1.0 request signer (`OAuth1Signer` in the REST client source
  file): percent-encoding, parameter sorting, signature base string,
  HMAC-SHA1 signature and the authorization header;
* the Redis-backed work queue (`RedisQueue` in `src/german-normalizer.ts`):
  enqueue/dequeue, acknowledgement, retry counting, statistics and reset.

Redis state is modelled explicitly: each key of the per-portal namespace
becomes one field of `RedisState`, and every queue method becomes a pure
state-passing function.  External library primitives (ECMAScript string
operations, Node `crypto` HMAC-SHA1) are modelled from their defining
standards, as noted at each definition.
-/

namespace IS24

/-! ## ECMAScript string primitives used by the signer -/

/-- The `uriUnescaped` character set of ECMA-262: ASCII letters, digits and
`- _ . ! ~ * ' ( )`.  `encodeURIComponent` leaves exactly these characters
unescaped. -/
def isUriUnescaped (c : Char) : Bool :=
  (('A' ≤ c && c ≤ 'Z') || ('a' ≤ c && c ≤ 'z') || ('0' ≤ c && c ≤ '9') ||
    c == '-' || c == '_' || c == '.' || c == '!' || c == '~' ||
    c == '*' || c == Char.ofNat 39 || c == '(' || c == ')')

/-- Uppercase hexadecimal digit for `n < 16`. -/
def hexDigit (n : Nat) : Char :=
  if n < 10 then Char.ofNat (48 + n) else Char.ofNat (55 + n)

/-- `%XX` escape of one byte, uppercase hex as emitted by
`encodeURIComponent`. -/
def byteHex (b : Nat) : String :=
  String.mk ['%', hexDigit (b / 16 % 16), hexDigit (b % 16)]

/-- UTF-8 bytes of one character (RFC 3629): 1 to 4 bytes depending on the
code point. -/
def utf8Bytes (c : Char) : List Nat :=
  let n := c.toNat
  if n < 128 then [n]
  else if n < 2048 then [192 + n / 64, 128 + n % 64]
  else if n < 65536 then [224 + n / 4096, 128 + n / 64 % 64, 128 + n % 64]
  else [240 + n / 262144, 128 + n / 4096 % 64, 128 + n / 64 % 64, 128 + n % 64]

/-- Modelled from ECMA-262 `encodeURIComponent` (an ECMAScript builtin,
external to the repository), restricted to one character: a `uriUnescaped`
character passes through, every other character becomes the uppercase `%XX`
escapes of its UTF-8 bytes. -/
def encodeURIComponentChar (c : Char) : String :=
  if isUriUnescaped c then String.singleton c
  else String.join ((utf8Bytes c).map byteHex)

/-- Modelled from ECMA-262 `encodeURIComponent`: each character is encoded
independently. -/
def encodeURIComponent (s : String) : String :=
  String.join (s.data.map encodeURIComponentChar)

/-- Modelled from ECMAScript `String.prototype.replace` with a global
single-character pattern and a plain replacement string (the only form the
signer uses): every occurrence of `c` is replaced by `r`. -/
def jsReplaceAllChar (s : String) (c : Char) (r : String) : String :=
  String.join (s.data.map (fun d => if d = c then r else String.singleton d))

/-- `OAuth1Signer.percentEncode`:
`encodeURIComponent(str).replace(/!/g,'%21').replace(/'/g,'%27')
.replace(/\(/g,'%28').replace(/\)/g,'%29').replace(/\*/g,'%2A')`. -/
def percentEncode (str : String) : String :=
  jsReplaceAllChar (jsReplaceAllChar (jsReplaceAllChar (jsReplaceAllChar
    (jsReplaceAllChar (encodeURIComponent str) '!' "%21")
    (Char.ofNat 39) "%27") '(' "%28") ')' "%29") '*' "%2A"

/-! ## The Redis work queue (`RedisQueue` in `src/german-normalizer.ts`)

The per-portal key namespace `landomo:<portal>:{queue, all_ids, processed,
failed, retries, stats}` becomes the fields of `RedisState`.  `markFailed`
additionally writes to the hash `landomo:<portal>:failed:errors`, modelled by
the `failedErrors` field.  Redis lists grow at the head under `lpush` and
`brpop` removes from the tail; sets are `Finset`s; hashes are total
functions with the Redis null/0 default. -/

structure RedisState where
  queue : List String
  allIds : Finset String
  processedIds : Finset String
  failedIds : Finset String
  retries : String → Nat
  failedErrors : String → Option String
  startedAt : Option String

/-- A fresh, never-used namespace: every key absent. -/
def freshState : RedisState :=
  ⟨[], ∅, ∅, ∅, fun _ => 0, fun _ => none, none⟩

/-- The `sismember` check opening `pushListingId`. -/
def pushListingIdRead (s : RedisState) (id : String) : Bool :=
  id ∈ s.allIds

/-- The pipelined `lpush` + `sadd` closing `pushListingId`. -/
def pushListingIdWrite (s : RedisState) (id : String) : RedisState :=
  { s with queue := id :: s.queue, allIds := insert id s.allIds }

/-- `RedisQueue.pushListingId`: check membership in `all_ids` with
`sismember`; if present return `false`, otherwise pipeline
`lpush queue id; sadd all_ids id` and return `true`. -/
def pushListingId (s : RedisState) (id : String) : RedisState × Bool :=
  if pushListingIdRead s id then (s, false)
  else (pushListingIdWrite s id, true)

/-- The pipeline of `sadd` commands issued for one batch inside
`pushListingIds`, together with the per-command results
(1 if the member was new, 0 if it was already present). -/
def saddMany (all : Finset String) : List String → Finset String × List Nat
  | [] => (all, [])
  | id :: rest =>
    let r : Nat := if id ∈ all then 0 else 1
    let (all2, rs) := saddMany (insert id all) rest
    (all2, r :: rs)

/-- One loop iteration of `RedisQueue.pushListingIds` on a single batch:
pipeline `sadd` for every id, keep the ids whose `sadd` result was 1, and
`lpush` those onto the queue (a multi-argument `lpush` pushes its arguments
left-to-right, so the last new id ends up at the head). -/
def pushBatch (s : RedisState) (batch : List String) : RedisState × Nat :=
  let (all2, results) := saddMany s.allIds batch
  let newIds := ((batch.zip results).filter (fun p => p.2 == 1)).map Prod.fst
  if 0 < newIds.length then
    ({ s with allIds := all2, queue := newIds.reverse ++ s.queue }, newIds.length)
  else
    ({ s with allIds := all2 }, 0)

/-- The slices `ids.slice(i, i + batchSize)` for `i = 0, batchSize, …` taken
by the loop of `pushListingIds`, with `batchSize = 1000`.  The list's length
serves as structural recursion fuel (one slice consumes at least one
element, so `ids.length` slices always suffice). -/
def batchesAux : Nat → List String → List (List String)
  | _, [] => []
  | 0, _ => []
  | fuel + 1, l => l.take 1000 :: batchesAux fuel (l.drop 1000)

/-- The batches of at most 1000 ids processed by `pushListingIds`. -/
def batches (ids : List String) : List (List String) :=
  batchesAux ids.length ids

/-- `RedisQueue.pushListingIds`: process the ids in batches of 1000,
accumulating the count of new ids. -/
def pushListingIds (s : RedisState) (ids : List String) : RedisState × Nat :=
  (batches ids).foldl
    (fun acc batch =>
      let (s2, n) := pushBatch acc.1 batch
      (s2, acc.2 + n))
    (s, 0)

/-- `RedisQueue.popListingId`: `brpop` removes from the tail of the queue
list; on an empty queue the blocking pop times out and the method returns
null. -/
def popListingId (s : RedisState) : RedisState × Option String :=
  match s.queue.getLast? with
  | none => (s, none)
  | some id => ({ s with queue := s.queue.dropLast }, some id)

/-- `RedisQueue.isProcessed`: `sismember processed id`. -/
def isProcessed (s : RedisState) (id : String) : Bool :=
  id ∈ s.processedIds

/-- `RedisQueue.markProcessed`: `sadd processed id`. -/
def markProcessed (s : RedisState) (id : String) : RedisState :=
  { s with processedIds := insert id s.processedIds }

/-- `RedisQueue.markFailed`: `sadd failed id`, and when a reason is supplied
also `hset failed:errors id reason`. -/
def markFailed (s : RedisState) (id : String) (error : Option String) :
    RedisState :=
  { s with
    failedIds := insert id s.failedIds
    failedErrors :=
      match error with
      | some e => fun k => if k = id then some e else s.failedErrors k
      | none => s.failedErrors }

/-- `RedisQueue.incrementRetry`: `hincrby retries id 1`, returning the new
value (a missing hash field counts as 0 before the increment). -/
def incrementRetry (s : RedisState) (id : String) : RedisState × Nat :=
  let n := s.retries id + 1
  ({ s with retries := fun k => if k = id then n else s.retries k }, n)

/-- `RedisQueue.getRetryCount`: `hget retries id`, null parsing to 0. -/
def getRetryCount (s : RedisState) (id : String) : Nat :=
  s.retries id

/-- `RedisQueue.requeueWithRetry`: increment the retry counter; if the new
count is still within `maxRetries`, `lpush` the id back and return `true`,
otherwise mark it failed (with a reason) and return `false`. -/
def requeueWithRetry (s : RedisState) (id : String) (maxRetries : Nat) :
    RedisState × Bool :=
  let (s1, retries) := incrementRetry s id
  if retries ≤ maxRetries then
    ({ s1 with queue := id :: s1.queue }, true)
  else
    (markFailed s1 id
      (some ("Max retries (" ++ toString maxRetries ++ ") exceeded")), false)

/-- `QueueStats` as returned by `RedisQueue.getStats`. -/
structure QueueStats where
  queueDepth : Nat
  totalDiscovered : Nat
  processedCount : Nat
  failedCount : Nat
  remaining : Nat
  startedAt : Option String

/-- `RedisQueue.getStats`: pipelined `llen queue`, `scard all_ids`,
`scard processed`, `scard failed`, `hget stats started_at`. -/
def getStats (s : RedisState) : QueueStats :=
  { queueDepth := s.queue.length
    totalDiscovered := s.allIds.card
    processedCount := s.processedIds.card
    failedCount := s.failedIds.card
    remaining := s.queue.length
    startedAt := s.startedAt }

/-- `RedisQueue.getProgress`: `processedCount / totalDiscovered * 100`,
guarded so that `totalDiscovered = 0` yields 0 without dividing. -/
def getProgress (s : RedisState) : ℚ :=
  let stats := getStats s
  if stats.totalDiscovered = 0 then 0
  else (stats.processedCount : ℚ) / (stats.totalDiscovered : ℚ) * 100

/-- `RedisQueue.clear`: `del` of the six namespace keys `queue`, `all_ids`,
`processed`, `failed`, `retries`, `stats`.  The auxiliary hash key
`failed:errors` written by `markFailed` is not in the `del` list, so
`failedErrors` is left untouched. -/
def clear (s : RedisState) : RedisState :=
  { s with
    queue := []
    allIds := ∅
    processedIds := ∅
    failedIds := ∅
    retries := fun _ => 0
    startedAt := none }

/-- Two processes running `pushListingId` concurrently on the same id, under
the interleaving read₁, read₂, write₁, write₂ (both `sismember` checks
complete before either pipelined write executes).  Returns the final state
and the two return values. -/
def pushRaceOverlapped (s : RedisState) (id : String) :
    RedisState × Bool × Bool :=
  let b1 := pushListingIdRead s id
  let b2 := pushListingIdRead s id
  let s1 := if b1 then s else pushListingIdWrite s id
  let s2 := if b2 then s1 else pushListingIdWrite s1 id
  (s2, !b1, !b2)

/-! ## Claims about the work queue -/

/-- C1 (Bounded retry): every `requeueWithRetry` call increments the id's
retry counter and returns `true` (pushing the id back onto the queue)
exactly when the new count is ≤ the limit, and otherwise inserts the id into
`failed` and returns `false`; with limit 3, four consecutive failures yield
exactly 3 requeues, final `failed` membership and a retry counter of 4; with
limit 1, the spec's two-failure scenario ends with `failed = {a}` and
`retries[a] = 2`. -/
theorem C1_bounded_retry :
    (∀ s id L,
      (requeueWithRetry s id L).2 = decide (getRetryCount s id + 1 ≤ L) ∧
      getRetryCount (requeueWithRetry s id L).1 id = getRetryCount s id + 1 ∧
      (requeueWithRetry s id L).1.queue =
        (if getRetryCount s id + 1 ≤ L then id :: s.queue else s.queue) ∧
      (requeueWithRetry s id L).1.failedIds =
        (if getRetryCount s id + 1 ≤ L then s.failedIds
         else insert id s.failedIds)) ∧
    (let r1 := requeueWithRetry freshState "a" 3
     let r2 := requeueWithRetry r1.1 "a" 3
     let r3 := requeueWithRetry r2.1 "a" 3
     let r4 := requeueWithRetry r3.1 "a" 3
     [r1.2, r2.2, r3.2, r4.2] = [true, true, true, false] ∧
       [r1.2, r2.2, r3.2, r4.2].count true = 3 ∧
       "a" ∈ r4.1.failedIds ∧ getRetryCount r4.1 "a" = 4) ∧
    (let s0 := (pushListingId freshState "a").1
     let d1 := popListingId s0
     let f1 := requeueWithRetry d1.1 "a" 1
     let d2 := popListingId f1.1
     let f2 := requeueWithRetry d2.1 "a" 1
     d1.2 = some "a" ∧ f1.2 = true ∧ getRetryCount f1.1 "a" = 1 ∧
       d2.2 = some "a" ∧ f2.2 = false ∧ f2.1.failedIds = {"a"} ∧
       getRetryCount f2.1 "a" = 2) := by
  refine ⟨fun s id L => ?_, by decide, by decide⟩
  simp only [requeueWithRetry, incrementRetry, getRetryCount, markFailed]
  by_cases h : s.retries id + 1 ≤ L <;> simp [h]

/-- C2 (Deduplicating enqueue): from a fresh namespace, enqueueing
`["a","b","a","c"]` — by one `pushListingIds` call or by repeated
`pushListingId` — leaves `all = {a,b,c}`, reports 3 new ids, and the queue
drains in FIFO order a, b, c; moreover an id already in `all` is never
counted or pushed again (a second push of the same id returns `false` and
changes nothing). -/
theorem C2_dedup_enqueue :
    (let r := pushListingIds freshState ["a", "b", "a", "c"]
     let p1 := popListingId r.1
     let p2 := popListingId p1.1
     let p3 := popListingId p2.1
     r.2 = 3 ∧ r.1.allIds = {"a", "b", "c"} ∧
       p1.2 = some "a" ∧ p2.2 = some "b" ∧ p3.2 = some "c" ∧
       p3.1.queue = []) ∧
    (let q1 := pushListingId freshState "a"
     let q2 := pushListingId q1.1 "b"
     let q3 := pushListingId q2.1 "a"
     let q4 := pushListingId q3.1 "c"
     let p1 := popListingId q4.1
     let p2 := popListingId p1.1
     let p3 := popListingId p2.1
     [q1.2, q2.2, q3.2, q4.2] = [true, true, false, true] ∧
       q4.1.allIds = {"a", "b", "c"} ∧
       p1.2 = some "a" ∧ p2.2 = some "b" ∧ p3.2 = some "c" ∧
       p3.1.queue = []) ∧
    (∀ s id, (pushListingId (pushListingId s id).1 id).2 = false ∧
      (pushListingId (pushListingId s id).1 id).1 = (pushListingId s id).1) := by
  refine ⟨by decide, by decide, fun s id => ?_⟩
  by_cases h : id ∈ s.allIds <;>
    simp [pushListingId, pushListingIdRead, pushListingIdWrite, h]

/-- C7 (Idempotent ack-success): for every state and id, the second of two
consecutive `markProcessed` calls changes no state, and `processed`
membership after two calls is identical to after one. -/
theorem C7_idempotent_ack :
    ∀ s id, markProcessed (markProcessed s id) id = markProcessed s id ∧
      isProcessed (markProcessed (markProcessed s id) id) id =
        isProcessed (markProcessed s id) id := by
  intro s id
  cases s
  simp [markProcessed, Finset.insert_idem]

/-- C8 (Atomic enqueue decision, code bug): `pushListingId` derives its
`wasNew` result from a separate `sismember` read preceding the pipelined
write, so under the overlapped interleaving (both reads before either
write) two concurrent enqueues of the same id on a fresh namespace both
return `true` and the id is pushed onto the queue twice — contradicting the
claim that the decision rests on the store's atomic set-insert outcome. -/
theorem C8_enqueue_race_check_then_act :
    (pushRaceOverlapped freshState "a").2 = (true, true) ∧
    (pushRaceOverlapped freshState "a").1.queue = ["a", "a"] := by
  decide

/-- C9 counterexample: after `markFailed "a"` with reason `"boom"` followed
by `clear`, the recorded failure reason is still readable — `clear` does
not delete the `failed:errors` hash, refuting the claim that failure
reasons recorded by `markFailed` are gone after `clear`. -/
theorem C9_clear_counterexample :
    (clear (markFailed freshState "a" (some "boom"))).failedErrors "a" =
      some "boom" ∧ some "boom" ≠ (none : Option String) := by
  exact ⟨rfl, by decide⟩

/-- C9 (Complete reset, amended): `clear` empties the queue, the `all`,
`processed` and `failed` sets, the retry counters and the start timestamp,
but the failure reasons stored by `markFailed` in the auxiliary
`failed:errors` hash survive unchanged. -/
theorem C9_clear_amended :
    ∀ s id, (clear s).queue = [] ∧ id ∉ (clear s).allIds ∧
      id ∉ (clear s).processedIds ∧ id ∉ (clear s).failedIds ∧
      getRetryCount (clear s) id = 0 ∧ (clear s).startedAt = none ∧
      (clear s).failedErrors = s.failedErrors := by
  intro s id
  simp [clear, getRetryCount]

/-- C10 (Division guard in progress computation): `getProgress` is total —
it returns 0 whenever `totalDiscovered` is 0 (in particular on a fresh or
cleared namespace) and `processedCount / totalDiscovered * 100`
otherwise. -/
theorem C10_progress_guard :
    (∀ s, getProgress s =
      if (getStats s).totalDiscovered = 0 then 0
      else ((getStats s).processedCount : ℚ) /
        ((getStats s).totalDiscovered : ℚ) * 100) ∧
    (∀ s, getProgress (clear s) = 0) ∧ getProgress freshState = 0 := by
  refine ⟨fun s => rfl, fun s => ?_, by decide⟩
  simp [getProgress, getStats, clear]

/-! ## OAuth 1.0 signer: parameters and sorting (`generateAuthHeader`) -/

/-- ECMAScript string ordering (`<` on strings, and the default
`Array.prototype.sort` comparator): lexicographic comparison of the
code-unit sequences. -/
def jsCharsLt : List Char → List Char → Bool
  | [], [] => false
  | [], _ :: _ => true
  | _ :: _, [] => false
  | a :: as, b :: bs =>
    if a.toNat < b.toNat then true
    else if b.toNat < a.toNat then false
    else jsCharsLt as bs

/-- ECMAScript string "less than". -/
def jsStrLt (a b : String) : Bool :=
  jsCharsLt a.data b.data

/-- Insertion into an ascending list under the boolean strict order `lt`. -/
def insertSorted (lt : String → String → Bool) (a : String) :
    List String → List String
  | [] => [a]
  | b :: l => if lt a b then a :: b :: l else b :: insertSorted lt a l

/-- Modelled from `Array.prototype.sort`: on pairwise-distinct strings the
sorted result is the unique ascending reordering, here computed by
insertion sort under `lt`. -/
def sortJs (lt : String → String → Bool) (l : List String) : List String :=
  l.foldr (insertSorted lt) []

/-- `OAuth1Signer`: the four credential strings. -/
structure OAuth1Signer where
  consumerKey : String
  consumerSecret : String
  accessToken : String
  accessSecret : String

/-- The `oauthParams` object built by `generateAuthHeader`, in source
order. -/
def oauthParams (sg : OAuth1Signer) (timestamp nonce : String) :
    List (String × String) :=
  [("oauth_consumer_key", sg.consumerKey),
   ("oauth_token", sg.accessToken),
   ("oauth_signature_method", "HMAC-SHA1"),
   ("oauth_timestamp", timestamp),
   ("oauth_nonce", nonce),
   ("oauth_version", "1.0")]

/-- One key-value assignment on an ECMAScript string-keyed object, as an
association list: an existing key's value is overwritten in place, a fresh
key is appended. -/
def jsSetKey (l : List (String × String)) (k v : String) :
    List (String × String) :=
  if l.any (fun kv => kv.1 = k) then
    l.map (fun kv => if kv.1 = k then (k, v) else kv)
  else l ++ [(k, v)]

/-- ECMAScript object spread `{ ...a, ...b }` on string-keyed records. -/
def jsSpread (a b : List (String × String)) : List (String × String) :=
  b.foldl (fun acc kv => jsSetKey acc kv.1 kv.2) a

/-- `allParams[key]` property read (every key passed in comes from
`Object.keys(allParams)`, so the default is never used). -/
def jsObjGet (l : List (String × String)) (k : String) : String :=
  ((l.find? (fun kv => kv.1 = k)).map Prod.snd).getD ""

/-- `Array.prototype.join(sep)`. -/
def jsJoin (sep : String) : List String → String
  | [] => ""
  | h :: t => t.foldl (fun acc x => acc ++ sep ++ x) h

/-- The `sortedParams` string built by `generateAuthHeader`:
`Object.keys(allParams).sort().map(key =>
percentEncode(key)=percentEncode(allParams[key])).join('&')` — note the
sort happens on the raw keys, before encoding. -/
def sortedParamsString (allParams : List (String × String)) : String :=
  jsJoin "&" ((sortJs jsStrLt (allParams.map Prod.fst)).map
    (fun key => percentEncode key ++ "=" ++ percentEncode (jsObjGet allParams key)))

/-- Modelled from the spec: "Sort the merged parameters lexicographically by
encoded key" — identical to `sortedParamsString` except that the sort
comparator compares the percent-encoded keys. -/
def specSortedParamsString (allParams : List (String × String)) : String :=
  jsJoin "&" ((sortJs (fun a b => jsStrLt (percentEncode a) (percentEncode b))
    (allParams.map Prod.fst)).map
    (fun key => percentEncode key ++ "=" ++ percentEncode (jsObjGet allParams key)))

theorem mem_insertSorted {lt : String → String → Bool} {a x : String}
    {l : List String} : x ∈ insertSorted lt a l ↔ x = a ∨ x ∈ l := by
  induction l with
  | nil => simp [insertSorted]
  | cons b l ih =>
    simp only [insertSorted]
    split
    · simp [List.mem_cons]
    · simp only [List.mem_cons, ih]
      tauto

theorem mem_sortJs {lt : String → String → Bool} {x : String}
    {l : List String} : x ∈ sortJs lt l ↔ x ∈ l := by
  induction l with
  | nil => simp [sortJs]
  | cons b l ih =>
    simp only [sortJs, List.foldr] at ih ⊢
    rw [mem_insertSorted]
    simp [ih]

theorem insertSorted_congr {lt1 lt2 : String → String → Bool} {a : String}
    {l : List String} (h : ∀ b ∈ l, lt1 a b = lt2 a b) :
    insertSorted lt1 a l = insertSorted lt2 a l := by
  induction l with
  | nil => rfl
  | cons b l ih =>
    simp only [insertSorted]
    rw [h b (List.mem_cons_self b l)]
    split
    · rfl
    · rw [ih (fun c hc => h c (List.mem_cons_of_mem b hc))]

theorem sortJs_congr {lt1 lt2 : String → String → Bool} {l : List String}
    (h : ∀ a ∈ l, ∀ b ∈ l, lt1 a b = lt2 a b) :
    sortJs lt1 l = sortJs lt2 l := by
  induction l with
  | nil => rfl
  | cons a l ih =>
    have htail : sortJs lt1 l = sortJs lt2 l :=
      ih (fun x hx y hy =>
        h x (List.mem_cons_of_mem a hx) y (List.mem_cons_of_mem a hy))
    show insertSorted lt1 a (sortJs lt1 l) = insertSorted lt2 a (sortJs lt2 l)
    rw [htail]
    exact insertSorted_congr (fun b hb =>
      h a (List.mem_cons_self a l) b
        (List.mem_cons_of_mem a (mem_sortJs.mp hb)))

/-- C3 counterexample: with request parameter keys `"0"` and `"@"` merged
into the authentication parameters, the parameter string actually built by
`generateAuthHeader` (raw-key sort: `0` before `%40`-encoded `@`) differs
from the string obtained by sorting on percent-encoded keys (`%40` before
`0`), refuting the claim that the merged parameters are sorted by their
percent-encoded key. -/
theorem C3_sort_counterexample :
    sortedParamsString
        (jsSpread (oauthParams ⟨"ck", "cs", "tok", "tsec"⟩ "1" "n")
          [("0", "x"), ("@", "y")]) ≠
      specSortedParamsString
        (jsSpread (oauthParams ⟨"ck", "cs", "tok", "tsec"⟩ "1" "n")
          [("0", "x"), ("@", "y")]) := by
  decide

/-- C3 (amended): `generateAuthHeader` sorts the merged parameters
lexicographically by their raw key; whenever every merged key consists only
of characters that the strict percent-encoding leaves unchanged — true of
the six `oauth_*` keys and of every request-parameter key this client
sends — this coincides with sorting by the percent-encoded key. -/
theorem C3_sort_raw_key_amended (allParams : List (String × String))
    (h : ∀ k ∈ allParams.map Prod.fst, percentEncode k = k) :
    sortedParamsString allParams = specSortedParamsString allParams := by
  unfold sortedParamsString specSortedParamsString
  rw [@sortJs_congr jsStrLt
    (fun a b => jsStrLt (percentEncode a) (percentEncode b))
    (allParams.map Prod.fst)
    (fun a ha b hb => by
      show jsStrLt a b = jsStrLt (percentEncode a) (percentEncode b)
      rw [h a ha, h b hb])]

/-- C3 witness: the amended theorem applied to the realistic parameter set
`{realestatetype: ApartmentRent}`, whose keys are all fixed by the strict
encoding. -/
theorem C3_sort_raw_key_amended_witness :
    (∀ k ∈ (jsSpread (oauthParams ⟨"key", "secret", "token", "tokensecret"⟩
        "1700000000" "abcdefghijklmnopqrstuv")
        [("realestatetype", "ApartmentRent")]).map Prod.fst,
      percentEncode k = k) ∧
    sortedParamsString
        (jsSpread (oauthParams ⟨"key", "secret", "token", "tokensecret"⟩
          "1700000000" "abcdefghijklmnopqrstuv")
          [("realestatetype", "ApartmentRent")]) =
      specSortedParamsString
        (jsSpread (oauthParams ⟨"key", "secret", "token", "tokensecret"⟩
          "1700000000" "abcdefghijklmnopqrstuv")
          [("realestatetype", "ApartmentRent")]) :=
  ⟨by decide, C3_sort_raw_key_amended _ (by decide)⟩

/-! ## Claim C4: strict percent-encoding -/

theorem foldl_append_assoc (l : List String) (a : String) :
    l.foldl (· ++ ·) a = a ++ l.foldl (· ++ ·) "" := by
  induction l generalizing a with
  | nil => simp [String.append_empty]
  | cons s l ih =>
    show l.foldl (· ++ ·) (a ++ s) = a ++ l.foldl (· ++ ·) ("" ++ s)
    rw [ih (a ++ s), ih ("" ++ s), String.empty_append, String.append_assoc]

theorem join_cons (s : String) (l : List String) :
    String.join (s :: l) = s ++ String.join l := by
  show l.foldl (· ++ ·) ("" ++ s) = s ++ l.foldl (· ++ ·) ""
  rw [String.empty_append, foldl_append_assoc]

theorem join_append (l1 l2 : List String) :
    String.join (l1 ++ l2) = String.join l1 ++ String.join l2 := by
  induction l1 with
  | nil =>
    show String.join l2 = String.join [] ++ String.join l2
    rw [show String.join [] = "" from rfl, String.empty_append]
  | cons s l ih =>
    rw [List.cons_append, join_cons, join_cons, ih, String.append_assoc]

theorem encodeURIComponent_append (s t : String) :
    encodeURIComponent (s ++ t) =
      encodeURIComponent s ++ encodeURIComponent t := by
  simp only [encodeURIComponent, String.data_append, List.map_append,
    join_append]

theorem jsReplaceAllChar_append (s t : String) (c : Char) (r : String) :
    jsReplaceAllChar (s ++ t) c r =
      jsReplaceAllChar s c r ++ jsReplaceAllChar t c r := by
  simp only [jsReplaceAllChar, String.data_append, List.map_append,
    join_append]

theorem percentEncode_append (s t : String) :
    percentEncode (s ++ t) = percentEncode s ++ percentEncode t := by
  simp only [percentEncode, encodeURIComponent_append, jsReplaceAllChar_append]

/-- C4 (Strict percent-encoding): `percentEncode` is a homomorphism on
string concatenation and maps `!` to `%21`, `'` to `%27`, `(` to `%28`,
`)` to `%29`, `*` to `%2A` and a space to `%20`; consequently the value
`!'()* ` encodes to `%21%27%28%29%2A%20`, the protocol's reserved escapes
rather than the default URI-encoding of those characters. -/
theorem C4_percent_encode_strict :
    (∀ s t : String, percentEncode (s ++ t) =
      percentEncode s ++ percentEncode t) ∧
    percentEncode "!" = "%21" ∧
    percentEncode (String.singleton (Char.ofNat 39)) = "%27" ∧
    percentEncode "(" = "%28" ∧
    percentEncode ")" = "%29" ∧
    percentEncode "*" = "%2A" ∧
    percentEncode " " = "%20" ∧
    percentEncode (String.mk ['!', Char.ofNat 39, '(', ')', '*', ' ']) =
      "%21%27%28%29%2A%20" :=
  ⟨percentEncode_append, by decide, by decide, by decide, by decide,
    by decide, by decide, by decide⟩

/-! ## HMAC-SHA1 and base64 (Node `crypto`, modelled from RFC 3174 /
RFC 2104 / RFC 4648, all external to the repository) -/

/-- Truncation to a 32-bit word. -/
def w32 (n : Nat) : Nat := n % 4294967296

/-- 32-bit left rotation by `k`. -/
def rotl32 (k x : Nat) : Nat := w32 (x <<< k ||| x >>> (32 - k))

/-- SHA-1 round constants. -/
def sha1K (i : Nat) : Nat :=
  if i < 20 then 0x5A827999
  else if i < 40 then 0x6ED9EBA1
  else if i < 60 then 0x8F1BBCDC
  else 0xCA62C1D6

/-- SHA-1 round functions (bitwise complement of a 32-bit word is xor with
`0xFFFFFFFF`). -/
def sha1F (i b c d : Nat) : Nat :=
  if i < 20 then (b &&& c) ||| ((b ^^^ 0xFFFFFFFF) &&& d)
  else if i < 40 then b ^^^ c ^^^ d
  else if i < 60 then (b &&& c) ||| (b &&& d) ||| (c &&& d)
  else b ^^^ c ^^^ d

/-- Message-schedule extension: append
`rotl1(w[i-3] xor w[i-8] xor w[i-14] xor w[i-16])` the given number of
times. -/
def sha1Extend : Nat → List Nat → List Nat
  | 0, w => w
  | n + 1, w =>
    sha1Extend n (w ++ [rotl32 1
      ((w.getD (w.length - 3) 0) ^^^ (w.getD (w.length - 8) 0) ^^^
        (w.getD (w.length - 14) 0) ^^^ (w.getD (w.length - 16) 0))])

/-- One SHA-1 round. -/
def sha1Round (w : List Nat) (st : Nat × Nat × Nat × Nat × Nat) (i : Nat) :
    Nat × Nat × Nat × Nat × Nat :=
  let (a, b, c, d, e) := st
  (w32 (rotl32 5 a + sha1F i b c d + e + sha1K i + w.getD i 0),
    a, rotl32 30 b, c, d)

/-- Process one 512-bit chunk (16 words extended to 80). -/
def sha1ProcessChunk (h : Nat × Nat × Nat × Nat × Nat) (chunk : List Nat) :
    Nat × Nat × Nat × Nat × Nat :=
  let w := sha1Extend 64 chunk
  let r := (List.range 80).foldl (sha1Round w) h
  (w32 (h.1 + r.1), w32 (h.2.1 + r.2.1), w32 (h.2.2.1 + r.2.2.1),
    w32 (h.2.2.2.1 + r.2.2.2.1), w32 (h.2.2.2.2 + r.2.2.2.2))

/-- 8-byte big-endian encoding of the bit length. -/
def bigEndian8 (n : Nat) : List Nat :=
  [n / 72057594037927936 % 256, n / 281474976710656 % 256,
   n / 1099511627776 % 256, n / 4294967296 % 256,
   n / 16777216 % 256, n / 65536 % 256, n / 256 % 256, n % 256]

/-- SHA-1 padding: append `0x80`, zero bytes to 56 mod 64, then the 64-bit
big-endian message bit length. -/
def sha1Pad (msg : List Nat) : List Nat :=
  msg ++ [128] ++ List.replicate ((119 - msg.length % 64) % 64) 0 ++
    bigEndian8 (msg.length * 8)

/-- Big-endian 32-bit words from bytes. -/
def bytesToWords : List Nat → List Nat
  | a :: b :: c :: d :: rest =>
    (((a * 256 + b) * 256 + c) * 256 + d) :: bytesToWords rest
  | _ => []

/-- 16-word chunks (fueled by the word-list length). -/
def wordChunksAux : Nat → List Nat → List (List Nat)
  | _, [] => []
  | 0, _ => []
  | fuel + 1, l => l.take 16 :: wordChunksAux fuel (l.drop 16)

/-- The five 32-bit state words after hashing the whole message. -/
def sha1Digest (msg : List Nat) : Nat × Nat × Nat × Nat × Nat :=
  let padded := sha1Pad msg
  let words := bytesToWords padded
  (wordChunksAux words.length words).foldl sha1ProcessChunk
    (0x67452301, 0xEFCDAB89, 0x98BADCFE, 0x10325476, 0xC3D2E1F0)

/-- Big-endian bytes of one 32-bit word. -/
def wordBytes (w : Nat) : List Nat :=
  [w / 16777216 % 256, w / 65536 % 256, w / 256 % 256, w % 256]

/-- SHA-1 digest as a list of 20 bytes. -/
def sha1Bytes (msg : List Nat) : List Nat :=
  let h := sha1Digest msg
  wordBytes h.1 ++ wordBytes h.2.1 ++ wordBytes h.2.2.1 ++
    wordBytes h.2.2.2.1 ++ wordBytes h.2.2.2.2

/-- HMAC-SHA1 (RFC 2104): block size 64 bytes, inner pad `0x36`, outer pad
`0x5c`. -/
def hmacSha1 (key msg : List Nat) : List Nat :=
  let k0 := if 64 < key.length then sha1Bytes key else key
  let kpad := k0 ++ List.replicate (64 - k0.length) 0
  sha1Bytes ((kpad.map (fun b => b ^^^ 92)) ++
    sha1Bytes ((kpad.map (fun b => b ^^^ 54)) ++ msg))

/-- The base64 alphabet (RFC 4648, as produced by
`digest('base64')`). -/
def base64Table : List Char :=
  "ABCDEFGHIJKLMNOPQRSTUVWXYZabcdefghijklmnopqrstuvwxyz0123456789+/".data

/-- One base64 output character. -/
def b64Char (n : Nat) : Char := base64Table.getD n 'A'

/-- base64 encoding of a byte list, with `=` padding. -/
def base64Encode : List Nat → String
  | [] => ""
  | [a] => String.mk [b64Char (a / 4), b64Char (a % 4 * 16), '=', '=']
  | [a, b] =>
    String.mk [b64Char (a / 4), b64Char (a % 4 * 16 + b / 16),
      b64Char (b % 16 * 4), '=']
  | a :: b :: c :: rest =>
    String.mk [b64Char (a / 4), b64Char (a % 4 * 16 + b / 16),
      b64Char (b % 16 * 4 + c / 64), b64Char (c % 64)] ++ base64Encode rest

/-- UTF-8 bytes of a string, as `crypto`'s `update`/`createHmac` consume
string arguments. -/
def strBytes (s : String) : List Nat :=
  (s.data.map utf8Bytes).flatten

/-! ## `generateAuthHeader` -/

/-- `{ ...oauthParams, ...params }`. -/
def mergedParams (sg : OAuth1Signer) (timestamp nonce : String)
    (params : List (String × String)) : List (String × String) :=
  jsSpread (oauthParams sg timestamp nonce) params

/-- The signing key: `percentEncode(consumerSecret)&percentEncode(accessSecret)`. -/
def signingKey (sg : OAuth1Signer) : String :=
  percentEncode sg.consumerSecret ++ "&" ++ percentEncode sg.accessSecret

/-- The signature base string:
`[method.toUpperCase(), percentEncode(url), percentEncode(sortedParams)].join('&')`. -/
def signatureBaseString (sg : OAuth1Signer) (method url : String)
    (params : List (String × String)) (timestamp nonce : String) : String :=
  jsJoin "&" [method.toUpper, percentEncode url,
    percentEncode (sortedParamsString (mergedParams sg timestamp nonce params))]

/-- `OAuth1Signer.generateAuthHeader`, with the impure timestamp and nonce
taken as inputs: merge, sort and encode the parameters, HMAC-SHA1-sign the
base string with the signing key, base64 the digest, and emit the `OAuth`
header from the six authentication parameters plus the signature. -/
def generateAuthHeader (sg : OAuth1Signer) (method url : String)
    (params : List (String × String)) (timestamp nonce : String) : String :=
  "OAuth " ++
    jsJoin "," ((oauthParams sg timestamp nonce).map
      (fun kv => kv.1 ++ "=\"" ++ percentEncode kv.2 ++ "\"")) ++
    ",oauth_signature=\"" ++
    percentEncode (base64Encode (hmacSha1 (strBytes (signingKey sg))
      (strBytes (signatureBaseString sg method url params timestamp nonce)))) ++
    "\""

/-! ## `IS24RestApiClient` (constructor and request interceptor) -/

/-- ECMAScript truthiness of an optional string: `undefined`/`null` and the
empty string are falsy. -/
def jsTruthyStr : Option String → Bool
  | none => false
  | some s => s != ""

/-- An axios request config as the interceptor sees it: request path,
method, query parameters (`none` values standing for `undefined`/`null`)
and headers. -/
structure AxiosConfig where
  url : Option String
  method : Option String
  params : List (String × Option String)
  headers : List (String × String)

/-- The client state fixed by the constructor: the optional signer and the
default headers of the created axios instance. -/
structure IS24Client where
  signer : Option OAuth1Signer
  defaultHeaders : List (String × String)

/-- `this.baseUrl`. -/
def is24BaseUrl : String := "https://rest.immobilienscout24.de/restapi/api"

/-- `IS24RestApiClient` constructor: the signer is created iff all four
credential fields are truthy
(`if (consumerKey && consumerSecret && accessToken && accessSecret)`); the
axios instance carries `User-Agent` and `Accept` default headers. -/
def mkIS24RestApiClient (ck cs tok tsec : Option String) : IS24Client :=
  { signer :=
      if jsTruthyStr ck && jsTruthyStr cs && jsTruthyStr tok &&
          jsTruthyStr tsec then
        some ⟨ck.getD "", cs.getD "", tok.getD "", tsec.getD ""⟩
      else none
    defaultHeaders :=
      [("User-Agent", "ImmobilienScout24APIClient/1.0"),
       ("Accept", "application/json")] }

/-- The request interceptor (with the fresh timestamp and nonce as inputs):
if a signer exists and the config has a truthy url, drop the null/undefined
params and set the `Authorization` header from `generateAuthHeader`;
otherwise return the config unchanged. -/
def interceptRequest (client : IS24Client) (timestamp nonce : String)
    (config : AxiosConfig) : AxiosConfig :=
  match client.signer with
  | none => config
  | some sg =>
    if jsTruthyStr config.url then
      let params := config.params.filter (fun kv => kv.2.isSome)
      let methodStr :=
        match config.method with
        | none => "GET"
        | some m => if m.toUpper = "" then "GET" else m.toUpper
      { config with
        params := params
        headers := jsSetKey config.headers "Authorization"
          (generateAuthHeader sg methodStr (is24BaseUrl ++ config.url.getD "")
            (params.map (fun kv => (kv.1, kv.2.getD ""))) timestamp nonce) }
    else config

/-- C6 (Unsigned degraded mode): if any of the four credential fields is
absent at construction, no signer is created, every request passes through
the interceptor unchanged (no `Authorization` header is ever attached), and
the default headers contain no `Authorization` entry — signing is skipped
as a binary capability rather than raising an error. -/
theorem C6_unsigned_degraded_mode :
    ∀ ck cs tok tsec : Option String,
      (ck = none ∨ cs = none ∨ tok = none ∨ tsec = none) →
      (mkIS24RestApiClient ck cs tok tsec).signer = none ∧
      (∀ config ts nonce,
        interceptRequest (mkIS24RestApiClient ck cs tok tsec) ts nonce
          config = config) ∧
      "Authorization" ∉
        ((mkIS24RestApiClient ck cs tok tsec).defaultHeaders.map Prod.fst) := by
  intro ck cs tok tsec h
  have hs : (mkIS24RestApiClient ck cs tok tsec).signer = none := by
    rcases h with h | h | h | h <;> subst h <;>
      simp [mkIS24RestApiClient, jsTruthyStr]
  refine ⟨hs, fun config ts nonce => ?_, by simp [mkIS24RestApiClient]⟩
  unfold interceptRequest
  rw [hs]

/-- C6 witness: a client constructed with a missing access secret signs
nothing. -/
theorem C6_unsigned_degraded_mode_witness :
    ((some "k" : Option String) = none ∨ (some "s" : Option String) = none ∨
      (some "t" : Option String) = none ∨ (none : Option String) = none) ∧
    ((mkIS24RestApiClient (some "k") (some "s") (some "t") none).signer =
        none ∧
      (∀ config ts nonce,
        interceptRequest (mkIS24RestApiClient (some "k") (some "s")
          (some "t") none) ts nonce config = config) ∧
      "Authorization" ∉
        ((mkIS24RestApiClient (some "k") (some "s") (some "t")
          none).defaultHeaders.map Prod.fst)) :=
  ⟨by decide,
    C6_unsigned_degraded_mode (some "k") (some "s") (some "t") none
      (by decide)⟩

/-! ## Claim C5: a 160-bit digest cannot separate all parameter values -/

/-- A byte list read as a big-endian base-256 number. -/
def digestNat (l : List Nat) : Nat :=
  l.foldl (fun acc b => acc * 256 + b) 0

theorem foldl_digest_shift (l : List Nat) (acc : Nat) :
    l.foldl (fun a b => a * 256 + b) acc =
      acc * 256 ^ l.length + l.foldl (fun a b => a * 256 + b) 0 := by
  induction l generalizing acc with
  | nil => simp
  | cons b l ih =>
    show l.foldl _ (acc * 256 + b) = acc * 256 ^ (l.length + 1) +
      l.foldl _ (0 * 256 + b)
    rw [ih (acc * 256 + b), ih (0 * 256 + b)]
    ring

theorem digestNat_cons (b : Nat) (l : List Nat) :
    digestNat (b :: l) = b * 256 ^ l.length + digestNat l := by
  show l.foldl _ (0 * 256 + b) = _
  rw [foldl_digest_shift]
  simp [digestNat]

theorem digestNat_lt (l : List Nat) (h : ∀ b ∈ l, b < 256) :
    digestNat l < 256 ^ l.length := by
  induction l with
  | nil => simp [digestNat]
  | cons b l ih =>
    have hb : b < 256 := h b (List.mem_cons_self b l)
    have ht : digestNat l < 256 ^ l.length :=
      ih (fun x hx => h x (List.mem_cons_of_mem b hx))
    rw [digestNat_cons]
    calc b * 256 ^ l.length + digestNat l
        < b * 256 ^ l.length + 256 ^ l.length := by omega
      _ = (b + 1) * 256 ^ l.length := by ring
      _ ≤ 256 * 256 ^ l.length := Nat.mul_le_mul_right _ (by omega)
      _ = 256 ^ (b :: l).length := by
          rw [List.length_cons, pow_succ]
          ring

theorem digestNat_inj (l1 : List Nat) (h1 : ∀ b ∈ l1, b < 256) :
    ∀ l2, (∀ b ∈ l2, b < 256) → l1.length = l2.length →
      digestNat l1 = digestNat l2 → l1 = l2 := by
  induction l1 with
  | nil =>
    intro l2 _ hlen _
    cases l2 with
    | nil => rfl
    | cons b2 t2 => simp at hlen
  | cons b1 t1 ih =>
    intro l2 h2 hlen heq
    cases l2 with
    | nil => simp at hlen
    | cons b2 t2 =>
      have hlen2 : t1.length = t2.length := by simpa using hlen
      rw [digestNat_cons, digestNat_cons, ← hlen2] at heq
      have hM : 0 < 256 ^ t1.length := pow_pos (by omega) _
      have hd1 : digestNat t1 < 256 ^ t1.length :=
        digestNat_lt t1 (fun x hx => h1 x (List.mem_cons_of_mem b1 hx))
      have hd2 : digestNat t2 < 256 ^ t1.length := by
        rw [hlen2]
        exact digestNat_lt t2 (fun x hx => h2 x (List.mem_cons_of_mem b2 hx))
      have hb : b1 = b2 := by
        have hq : (b1 * 256 ^ t1.length + digestNat t1) / 256 ^ t1.length =
            (b2 * 256 ^ t1.length + digestNat t2) / 256 ^ t1.length := by
          rw [heq]
        rwa [Nat.mul_comm b1 _, Nat.mul_comm b2 _, Nat.mul_add_div hM,
          Nat.mul_add_div hM, Nat.div_eq_of_lt hd1, Nat.div_eq_of_lt hd2] at hq
      subst hb
      have hd : digestNat t1 = digestNat t2 := by omega
      rw [ih (fun x hx => h1 x (List.mem_cons_of_mem b1 hx)) t2
        (fun x hx => h2 x (List.mem_cons_of_mem b1 hx)) hlen2 hd]

theorem wordBytes_lt (w : Nat) : ∀ b ∈ wordBytes w, b < 256 := by
  intro b hb
  simp [wordBytes] at hb
  rcases hb with h | h | h | h <;> subst h <;> omega

theorem sha1Bytes_length (m : List Nat) : (sha1Bytes m).length = 20 := by
  simp [sha1Bytes, wordBytes]

theorem sha1Bytes_lt (m : List Nat) : ∀ b ∈ sha1Bytes m, b < 256 := by
  intro b hb
  simp only [sha1Bytes, List.mem_append] at hb
  rcases hb with ((((h | h) | h) | h) | h) <;> exact wordBytes_lt _ b h

theorem hmacSha1_length (k m : List Nat) : (hmacSha1 k m).length = 20 := by
  simp only [hmacSha1]
  exact sha1Bytes_length _

theorem hmacSha1_lt (k m : List Nat) : ∀ b ∈ hmacSha1 k m, b < 256 := by
  simp only [hmacSha1]
  exact sha1Bytes_lt _

theorem generateAuthHeader_congr (sg : OAuth1Signer)
    (method url ts nonce : String) (p1 p2 : List (String × String))
    (h : hmacSha1 (strBytes (signingKey sg))
        (strBytes (signatureBaseString sg method url p1 ts nonce)) =
      hmacSha1 (strBytes (signingKey sg))
        (strBytes (signatureBaseString sg method url p2 ts nonce))) :
    generateAuthHeader sg method url p1 ts nonce =
      generateAuthHeader sg method url p2 ts nonce := by
  unfold generateAuthHeader
  rw [h]

/-- C5 counterexample: "changing any single request parameter value changes
the resulting signature" is falsified by pigeonhole — the parameter values
range over infinitely many strings while the HMAC-SHA1 digest has only
`256 ^ 20` possible values, so two distinct values of the parameter `q`
produce byte-identical authorization headers. -/
theorem C5_signature_collision_counterexample :
    ∃ v1 v2 : String, v1 ≠ v2 ∧
      generateAuthHeader ⟨"ck", "cs", "tok", "tsec"⟩ "GET"
        "https://example.com" [("q", v1)] "1" "n" =
      generateAuthHeader ⟨"ck", "cs", "tok", "tsec"⟩ "GET"
        "https://example.com" [("q", v2)] "1" "n" := by
  have hbound : ∀ v : String,
      digestNat (hmacSha1 (strBytes (signingKey ⟨"ck", "cs", "tok", "tsec"⟩))
        (strBytes (signatureBaseString ⟨"ck", "cs", "tok", "tsec"⟩ "GET"
          "https://example.com" [("q", v)] "1" "n"))) < 256 ^ 20 := by
    intro v
    have h := digestNat_lt _ (hmacSha1_lt (strBytes
      (signingKey ⟨"ck", "cs", "tok", "tsec"⟩))
      (strBytes (signatureBaseString ⟨"ck", "cs", "tok", "tsec"⟩ "GET"
        "https://example.com" [("q", v)] "1" "n")))
    rwa [hmacSha1_length] at h
  obtain ⟨v1, v2, hne, hf⟩ :=
    Finite.exists_ne_map_eq_of_infinite
      (fun v : String =>
        (⟨digestNat (hmacSha1 (strBytes (signingKey ⟨"ck", "cs", "tok", "tsec"⟩))
          (strBytes (signatureBaseString ⟨"ck", "cs", "tok", "tsec"⟩ "GET"
            "https://example.com" [("q", v)] "1" "n"))),
          hbound v⟩ : Fin (256 ^ 20)))
  refine ⟨v1, v2, hne, generateAuthHeader_congr _ _ _ _ _ _ _ ?_⟩
  have hval := congrArg Fin.val hf
  exact digestNat_inj _ (hmacSha1_lt _ _) _ (hmacSha1_lt _ _)
    (by rw [hmacSha1_length, hmacSha1_length]) hval

/-! ## `percentEncode` as a per-character code, and its injectivity -/

/-- The chunk `percentEncode` emits for one input character: the five
protocol-reserved characters get their fixed escapes, other `uriUnescaped`
characters pass through, everything else becomes UTF-8 `%XX` escapes. -/
def percentEncodeChar (c : Char) : String :=
  if c = '!' then "%21"
  else if c = Char.ofNat 39 then "%27"
  else if c = '(' then "%28"
  else if c = ')' then "%29"
  else if c = '*' then "%2A"
  else encodeURIComponentChar c

theorem join_singleton (s : String) : String.join [s] = s := by
  rw [join_cons]
  show s ++ String.join [] = s
  rw [show String.join [] = "" from rfl, String.append_empty]

theorem join_map_singleton (l : List Char) :
    String.join (l.map String.singleton) = String.mk l := by
  induction l with
  | nil => rfl
  | cons c cs ih =>
    rw [List.map_cons, join_cons, ih]
    rfl

theorem data_join (l : List String) :
    (String.join l).data = (l.map String.data).flatten := by
  induction l with
  | nil => rfl
  | cons s l ih =>
    rw [join_cons, String.data_append, ih, List.map_cons, List.flatten_cons]

theorem jsReplaceAllChar_singleton (d c : Char) (r : String) :
    jsReplaceAllChar (String.singleton d) c r =
      if d = c then r else String.singleton d := by
  show String.join ([d].map _) = _
  rw [List.map_cons, List.map_nil, join_singleton]

theorem jsReplaceAllChar_of_not_mem (s : String) (c : Char) (r : String)
    (h : ∀ d ∈ s.data, d ≠ c) : jsReplaceAllChar s c r = s := by
  unfold jsReplaceAllChar
  have hmapeq : s.data.map (fun d => if d = c then r else String.singleton d) =
      s.data.map String.singleton :=
    List.map_congr_left (fun d hd => by rw [if_neg (h d hd)])
  rw [hmapeq, join_map_singleton]

theorem encodeURIComponent_singleton (c : Char) :
    encodeURIComponent (String.singleton c) = encodeURIComponentChar c := by
  show String.join ([c].map _) = _
  rw [List.map_cons, List.map_nil, join_singleton]

theorem hexDigit_not_special :
    ∀ x < 16, hexDigit x ≠ '!' ∧ hexDigit x ≠ Char.ofNat 39 ∧
      hexDigit x ≠ '(' ∧ hexDigit x ≠ ')' ∧ hexDigit x ≠ '*' := by
  decide

theorem encodeURIComponentChar_unsafe_not_mem (c : Char)
    (hc : isUriUnescaped c = false) :
    ∀ d ∈ (encodeURIComponentChar c).data,
      d ≠ '!' ∧ d ≠ Char.ofNat 39 ∧ d ≠ '(' ∧ d ≠ ')' ∧ d ≠ '*' := by
  intro d hd
  rw [encodeURIComponentChar, if_neg (by rw [hc]; exact Bool.false_ne_true),
    data_join] at hd
  rw [List.map_map] at hd
  rcases List.mem_flatten.mp hd with ⟨chunk, hchunk, hdc⟩
  rcases List.mem_map.mp hchunk with ⟨b, _, hb⟩
  have hdata : (String.data ∘ byteHex) b =
      ['%', hexDigit (b / 16 % 16), hexDigit (b % 16)] := rfl
  rw [hdata] at hb
  subst hb
  have h1 : b / 16 % 16 < 16 := Nat.mod_lt _ (by omega)
  have h2 : b % 16 < 16 := Nat.mod_lt _ (by omega)
  simp only [List.mem_cons, List.not_mem_nil, or_false] at hdc
  rcases hdc with h | h | h
  · subst h; exact ⟨by decide, by decide, by decide, by decide, by decide⟩
  · subst h; exact hexDigit_not_special _ h1
  · subst h; exact hexDigit_not_special _ h2

theorem percentEncode_singleton (c : Char) :
    percentEncode (String.singleton c) = percentEncodeChar c := by
  by_cases h1 : c = '!'
  · subst h1; decide
  by_cases h2 : c = Char.ofNat 39
  · subst h2; decide
  by_cases h3 : c = '('
  · subst h3; decide
  by_cases h4 : c = ')'
  · subst h4; decide
  by_cases h5 : c = '*'
  · subst h5; decide
  rw [percentEncodeChar, if_neg h1, if_neg h2, if_neg h3, if_neg h4,
    if_neg h5, percentEncode, encodeURIComponent_singleton]
  by_cases hsafe : isUriUnescaped c = true
  · have henc : encodeURIComponentChar c = String.singleton c := by
      rw [encodeURIComponentChar, if_pos hsafe]
    rw [henc, jsReplaceAllChar_singleton, if_neg h1,
      jsReplaceAllChar_singleton, if_neg h2, jsReplaceAllChar_singleton,
      if_neg h3, jsReplaceAllChar_singleton, if_neg h4,
      jsReplaceAllChar_singleton, if_neg h5]
  · have hc : isUriUnescaped c = false := by
      revert hsafe
      cases isUriUnescaped c <;> simp
    have hmem := encodeURIComponentChar_unsafe_not_mem c hc
    rw [jsReplaceAllChar_of_not_mem _ _ _ (fun d hd => (hmem d hd).1),
      jsReplaceAllChar_of_not_mem _ _ _ (fun d hd => (hmem d hd).2.1),
      jsReplaceAllChar_of_not_mem _ _ _ (fun d hd => (hmem d hd).2.2.1),
      jsReplaceAllChar_of_not_mem _ _ _ (fun d hd => (hmem d hd).2.2.2.1),
      jsReplaceAllChar_of_not_mem _ _ _ (fun d hd => (hmem d hd).2.2.2.2)]

theorem percentEncode_eq_join (s : String) :
    percentEncode s = String.join (s.data.map percentEncodeChar) := by
  obtain ⟨l⟩ := s
  induction l with
  | nil => decide
  | cons c cs ih =>
    have hsplit : percentEncode ⟨c :: cs⟩ =
        percentEncodeChar c ++ percentEncode ⟨cs⟩ := by
      conv_lhs =>
        rw [show (⟨c :: cs⟩ : String) = String.singleton c ++ ⟨cs⟩ from rfl]
      rw [percentEncode_append, percentEncode_singleton]
    rw [hsplit, ih]
    show _ = String.join (List.map percentEncodeChar (c :: cs))
    rw [List.map_cons, join_cons]

/-- Value of an uppercase hexadecimal digit character. -/
def hexVal (c : Char) : Nat :=
  if c.toNat ≤ 57 then c.toNat - 48 else c.toNat - 55

/-- Number of bytes of a UTF-8 sequence, from its lead byte. -/
def utf8Len (b : Nat) : Nat :=
  if b < 128 then 1 else if b < 224 then 2 else if b < 240 then 3 else 4

/-- Code point of a UTF-8 byte sequence. -/
def utf8DecNat : List Nat → Nat
  | [b] => b
  | [b0, b1] => (b0 - 192) * 64 + (b1 - 128)
  | [b0, b1, b2] => (b0 - 224) * 4096 + (b1 - 128) * 64 + (b2 - 128)
  | [b0, b1, b2, b3] =>
    (b0 - 240) * 262144 + (b1 - 128) * 4096 + (b2 - 128) * 64 + (b3 - 128)
  | _ => 0

/-- Read the given number of `%XX` triples. -/
def readTriples : Nat → List Char → Option (List Nat × List Char)
  | 0, l => some ([], l)
  | n + 1, l =>
    match l with
    | '%' :: h1 :: h2 :: rest =>
      match readTriples n rest with
      | some (bs, rem) => some ((hexVal h1 * 16 + hexVal h2) :: bs, rem)
      | none => none
    | _ => none

/-- Decoder for the character stream produced by `percentEncode`: a literal
character stands for itself, a `%XX` group opens a UTF-8 sequence whose
length the lead byte dictates.  The fuel drops by one per decoded
character. -/
def peDecodeAux : Nat → List Char → Option (List Char)
  | _, [] => some []
  | 0, _ :: _ => none
  | fuel + 1, c :: rest =>
    if c = '%' then
      match rest with
      | h1 :: h2 :: rest2 =>
        match readTriples (utf8Len (hexVal h1 * 16 + hexVal h2) - 1) rest2 with
        | some (bs, rem) =>
          (peDecodeAux fuel rem).map
            (fun cs =>
              Char.ofNat (utf8DecNat ((hexVal h1 * 16 + hexVal h2) :: bs)) :: cs)
        | none => none
      | _ => none
    else
      (peDecodeAux fuel rest).map (fun cs => c :: cs)

theorem char_toNat_lt (c : Char) : c.toNat < 1114112 := by
  have h := c.valid
  show c.val.toNat < 1114112
  rcases h with h | ⟨h1, h2⟩ <;> omega

theorem hexVal_hexDigit : ∀ x < 16, hexVal (hexDigit x) = x := by
  decide

theorem hexPair (b : Nat) (hb : b < 256) :
    hexVal (hexDigit (b / 16 % 16)) * 16 + hexVal (hexDigit (b % 16)) = b := by
  have h1 : b / 16 % 16 < 16 := Nat.mod_lt _ (by omega)
  have h2 : b % 16 < 16 := Nat.mod_lt _ (by omega)
  rw [hexVal_hexDigit _ h1, hexVal_hexDigit _ h2]
  omega

theorem peDecodeAux_plain (f : Nat) (rest : List Char) (c : Char)
    (hc : ¬c = '%') :
    peDecodeAux (f + 1) (c :: rest) =
      (peDecodeAux f rest).map (fun cs => c :: cs) := by
  simp [peDecodeAux, hc]

theorem peDecodeAux_special (f : Nat) (rest : List Char) (x y c0 : Char)
    (hb : utf8Len (hexVal x * 16 + hexVal y) = 1)
    (hc : Char.ofNat (utf8DecNat [hexVal x * 16 + hexVal y]) = c0) :
    peDecodeAux (f + 1) ('%' :: x :: y :: rest) =
      (peDecodeAux f rest).map (fun cs => c0 :: cs) := by
  simp [peDecodeAux, hb, readTriples, hc]

theorem peDecodeAux_oneByte (f : Nat) (rest : List Char) (b0 : Nat)
    (hb : b0 < 128) :
    peDecodeAux (f + 1) ((byteHex b0).data ++ rest) =
      (peDecodeAux f rest).map
        (fun cs => Char.ofNat (utf8DecNat [b0]) :: cs) := by
  have hlen : utf8Len b0 = 1 := by simp [utf8Len, hb]
  have hrec := hexPair b0 (by omega)
  show peDecodeAux (f + 1)
    ('%' :: hexDigit (b0 / 16 % 16) :: hexDigit (b0 % 16) :: rest) = _
  simp [peDecodeAux, hrec, hlen, readTriples]

theorem peDecodeAux_twoByte (f : Nat) (rest : List Char) (b0 b1 : Nat)
    (hb0 : 128 ≤ b0) (hb0' : b0 < 224) (hb1 : b1 < 256) :
    peDecodeAux (f + 1) ((byteHex b0).data ++ (byteHex b1).data ++ rest) =
      (peDecodeAux f rest).map
        (fun cs => Char.ofNat (utf8DecNat [b0, b1]) :: cs) := by
  have hlen : utf8Len b0 = 2 := by
    simp only [utf8Len]
    rw [if_neg (by omega), if_pos (by omega)]
  have hrec0 := hexPair b0 (by omega)
  have hrec1 := hexPair b1 hb1
  show peDecodeAux (f + 1)
    ('%' :: hexDigit (b0 / 16 % 16) :: hexDigit (b0 % 16) ::
      '%' :: hexDigit (b1 / 16 % 16) :: hexDigit (b1 % 16) :: rest) = _
  simp [peDecodeAux, hrec0, hrec1, hlen, readTriples]

theorem peDecodeAux_threeByte (f : Nat) (rest : List Char) (b0 b1 b2 : Nat)
    (hb0 : 224 ≤ b0) (hb0' : b0 < 240) (hb1 : b1 < 256) (hb2 : b2 < 256) :
    peDecodeAux (f + 1)
      ((byteHex b0).data ++ (byteHex b1).data ++ (byteHex b2).data ++ rest) =
      (peDecodeAux f rest).map
        (fun cs => Char.ofNat (utf8DecNat [b0, b1, b2]) :: cs) := by
  have hlen : utf8Len b0 = 3 := by
    simp only [utf8Len]
    rw [if_neg (by omega), if_neg (by omega), if_pos (by omega)]
  have hrec0 := hexPair b0 (by omega)
  have hrec1 := hexPair b1 hb1
  have hrec2 := hexPair b2 hb2
  show peDecodeAux (f + 1)
    ('%' :: hexDigit (b0 / 16 % 16) :: hexDigit (b0 % 16) ::
      '%' :: hexDigit (b1 / 16 % 16) :: hexDigit (b1 % 16) ::
      '%' :: hexDigit (b2 / 16 % 16) :: hexDigit (b2 % 16) :: rest) = _
  simp [peDecodeAux, hrec0, hrec1, hrec2, hlen, readTriples]

theorem peDecodeAux_fourByte (f : Nat) (rest : List Char) (b0 b1 b2 b3 : Nat)
    (hb0 : 240 ≤ b0) (hb0' : b0 < 256) (hb1 : b1 < 256) (hb2 : b2 < 256)
    (hb3 : b3 < 256) :
    peDecodeAux (f + 1)
      ((byteHex b0).data ++ (byteHex b1).data ++ (byteHex b2).data ++
        (byteHex b3).data ++ rest) =
      (peDecodeAux f rest).map
        (fun cs => Char.ofNat (utf8DecNat [b0, b1, b2, b3]) :: cs) := by
  have hlen : utf8Len b0 = 4 := by
    simp only [utf8Len]
    rw [if_neg (by omega), if_neg (by omega), if_neg (by omega)]
  have hrec0 := hexPair b0 hb0'
  have hrec1 := hexPair b1 hb1
  have hrec2 := hexPair b2 hb2
  have hrec3 := hexPair b3 hb3
  show peDecodeAux (f + 1)
    ('%' :: hexDigit (b0 / 16 % 16) :: hexDigit (b0 % 16) ::
      '%' :: hexDigit (b1 / 16 % 16) :: hexDigit (b1 % 16) ::
      '%' :: hexDigit (b2 / 16 % 16) :: hexDigit (b2 % 16) ::
      '%' :: hexDigit (b3 / 16 % 16) :: hexDigit (b3 % 16) :: rest) = _
  simp [peDecodeAux, hrec0, hrec1, hrec2, hrec3, hlen, readTriples]

theorem peDecodeAux_step (c : Char) (f : Nat) (rest : List Char) :
    peDecodeAux (f + 1) ((percentEncodeChar c).data ++ rest) =
      (peDecodeAux f rest).map (fun cs => c :: cs) := by
  by_cases h1 : c = '!'
  · subst h1
    exact peDecodeAux_special f rest '2' '1' '!' (by decide) (by decide)
  by_cases h2 : c = Char.ofNat 39
  · subst h2
    exact peDecodeAux_special f rest '2' '7' (Char.ofNat 39) (by decide)
      (by decide)
  by_cases h3 : c = '('
  · subst h3
    exact peDecodeAux_special f rest '2' '8' '(' (by decide) (by decide)
  by_cases h4 : c = ')'
  · subst h4
    exact peDecodeAux_special f rest '2' '9' ')' (by decide) (by decide)
  by_cases h5 : c = '*'
  · subst h5
    exact peDecodeAux_special f rest '2' 'A' '*' (by decide) (by decide)
  rw [percentEncodeChar, if_neg h1, if_neg h2, if_neg h3, if_neg h4,
    if_neg h5]
  by_cases hsafe : isUriUnescaped c = true
  · rw [encodeURIComponentChar, if_pos hsafe]
    have hcp : ¬c = '%' := fun h => by
      subst h
      exact absurd hsafe (by decide)
    show peDecodeAux (f + 1) (c :: rest) = _
    exact peDecodeAux_plain f rest c hcp
  · have hcf : isUriUnescaped c = false := by
      revert hsafe
      cases isUriUnescaped c <;> simp
    rw [encodeURIComponentChar, if_neg (by rw [hcf]; exact Bool.false_ne_true)]
    have hn := char_toNat_lt c
    by_cases r1 : c.toNat < 128
    · have hbytes : utf8Bytes c = [c.toNat] := by
        simp only [utf8Bytes]
        rw [if_pos r1]
      rw [hbytes]
      show peDecodeAux (f + 1) ((byteHex c.toNat).data ++ rest) = _
      rw [peDecodeAux_oneByte f rest c.toNat r1]
      simp only [show utf8DecNat [c.toNat] = c.toNat from rfl,
        Char.ofNat_toNat]
    by_cases r2 : c.toNat < 2048
    · have hbytes : utf8Bytes c = [192 + c.toNat / 64, 128 + c.toNat % 64] := by
        simp only [utf8Bytes]
        rw [if_neg r1, if_pos r2]
      rw [hbytes]
      show peDecodeAux (f + 1) ((byteHex (192 + c.toNat / 64)).data ++
        (byteHex (128 + c.toNat % 64)).data ++ rest) = _
      rw [peDecodeAux_twoByte f rest _ _ (by omega) (by omega) (by omega)]
      have hdec : utf8DecNat [192 + c.toNat / 64, 128 + c.toNat % 64] =
          c.toNat := by
        simp only [utf8DecNat]
        omega
      simp only [hdec, Char.ofNat_toNat]
    by_cases r3 : c.toNat < 65536
    · have hbytes : utf8Bytes c =
          [224 + c.toNat / 4096, 128 + c.toNat / 64 % 64, 128 + c.toNat % 64] := by
        simp only [utf8Bytes]
        rw [if_neg r1, if_neg r2, if_pos r3]
      rw [hbytes]
      show peDecodeAux (f + 1) ((byteHex (224 + c.toNat / 4096)).data ++
        (byteHex (128 + c.toNat / 64 % 64)).data ++
        (byteHex (128 + c.toNat % 64)).data ++ rest) = _
      rw [peDecodeAux_threeByte f rest _ _ _ (by omega) (by omega) (by omega)
        (by omega)]
      have hdec : utf8DecNat [224 + c.toNat / 4096, 128 + c.toNat / 64 % 64,
          128 + c.toNat % 64] = c.toNat := by
        simp only [utf8DecNat]
        omega
      simp only [hdec, Char.ofNat_toNat]
    · have hbytes : utf8Bytes c =
          [240 + c.toNat / 262144, 128 + c.toNat / 4096 % 64,
            128 + c.toNat / 64 % 64, 128 + c.toNat % 64] := by
        simp only [utf8Bytes]
        rw [if_neg r1, if_neg r2, if_neg r3]
      rw [hbytes]
      show peDecodeAux (f + 1) ((byteHex (240 + c.toNat / 262144)).data ++
        (byteHex (128 + c.toNat / 4096 % 64)).data ++
        (byteHex (128 + c.toNat / 64 % 64)).data ++
        (byteHex (128 + c.toNat % 64)).data ++ rest) = _
      rw [peDecodeAux_fourByte f rest _ _ _ _ (by omega) (by omega) (by omega)
        (by omega) (by omega)]
      have hdec : utf8DecNat [240 + c.toNat / 262144,
          128 + c.toNat / 4096 % 64, 128 + c.toNat / 64 % 64,
          128 + c.toNat % 64] = c.toNat := by
        simp only [utf8DecNat]
        omega
      simp only [hdec, Char.ofNat_toNat]

theorem peDecodeAux_correct (cs : List Char) :
    ∀ extra : Nat,
      peDecodeAux (cs.length + extra)
        (String.join (cs.map percentEncodeChar)).data = some cs := by
  induction cs with
  | nil =>
    intro extra
    simp [peDecodeAux]
  | cons c cs ih =>
    intro extra
    rw [List.map_cons, join_cons, String.data_append]
    have hfuel : (c :: cs).length + extra = (cs.length + extra) + 1 := by
      rw [List.length_cons]
      omega
    rw [hfuel, peDecodeAux_step, ih extra]
    rfl

/-- `percentEncode` is injective: distinct inputs have distinct encodings. -/
theorem percentEncode_injective {s t : String}
    (h : percentEncode s = percentEncode t) : s = t := by
  have hs := peDecodeAux_correct s.data t.data.length
  have ht := peDecodeAux_correct t.data s.data.length
  rw [← percentEncode_eq_join] at hs ht
  rw [h, Nat.add_comm] at hs
  rw [hs] at ht
  exact String.ext (Option.some.inj ht)

/-! ## Cancellation and decomposition lemmas for the joined strings -/

theorem str_append_cancel_left {a b c : String} (h : a ++ b = a ++ c) :
    b = c := by
  apply String.ext
  have hd := congrArg String.data h
  rw [String.data_append, String.data_append] at hd
  exact List.append_cancel_left hd

theorem str_append_cancel_right {a b c : String} (h : a ++ c = b ++ c) :
    a = b := by
  apply String.ext
  have hd := congrArg String.data h
  rw [String.data_append, String.data_append] at hd
  exact List.append_cancel_right hd

/-- The `sep`-prefixed tail of a separator join. -/
def joinTail (sep : String) : List String → String
  | [] => ""
  | z :: l => sep ++ z ++ joinTail sep l

theorem foldl_append_sep (sep : String) (l : List String) :
    ∀ y, l.foldl (fun acc z => acc ++ sep ++ z) y = y ++ joinTail sep l := by
  induction l with
  | nil =>
    intro y
    simp [joinTail, String.append_empty]
  | cons z l ih =>
    intro y
    show l.foldl _ (y ++ sep ++ z) = y ++ joinTail sep (z :: l)
    rw [ih (y ++ sep ++ z)]
    show y ++ sep ++ z ++ joinTail sep l = y ++ (sep ++ z ++ joinTail sep l)
    simp [String.append_assoc]

theorem jsJoin_cons (sep h : String) (t : List String) :
    jsJoin sep (h :: t) = h ++ joinTail sep t :=
  foldl_append_sep sep t h

theorem joinTail_append (sep : String) (A B : List String) :
    joinTail sep (A ++ B) = joinTail sep A ++ joinTail sep B := by
  induction A with
  | nil =>
    show joinTail sep B = "" ++ joinTail sep B
    rw [String.empty_append]
  | cons z A ih =>
    show sep ++ z ++ joinTail sep (A ++ B) = sep ++ z ++ joinTail sep A ++ _
    rw [ih]
    simp [String.append_assoc]

theorem jsJoin_middle_inj (sep : String) (M N : List String) {y1 y2 : String}
    (h : jsJoin sep (M ++ y1 :: N) = jsJoin sep (M ++ y2 :: N)) : y1 = y2 := by
  cases M with
  | nil =>
    rw [List.nil_append, List.nil_append, jsJoin_cons, jsJoin_cons] at h
    exact str_append_cancel_right h
  | cons m M =>
    rw [List.cons_append, List.cons_append, jsJoin_cons, jsJoin_cons,
      joinTail_append, joinTail_append] at h
    have h2 := str_append_cancel_left h
    have h3 : (sep ++ y1) ++ joinTail sep N = (sep ++ y2) ++ joinTail sep N :=
      str_append_cancel_left h2
    exact str_append_cancel_left (str_append_cancel_right h3)

/-! ## Merging and lookup lemmas for the parameter object -/

theorem jsSetKey_fresh (l : List (String × String)) (k v : String)
    (h : k ∉ l.map Prod.fst) : jsSetKey l k v = l ++ [(k, v)] := by
  rw [jsSetKey, if_neg]
  simp only [List.any_eq_true, decide_eq_true_eq]
  rintro ⟨kv, hkv, hk⟩
  exact h (List.mem_map.mpr ⟨kv, hkv, hk⟩)

theorem jsSpread_eq_append (b : List (String × String)) :
    ∀ a, (∀ k ∈ b.map Prod.fst, k ∉ a.map Prod.fst) →
      (b.map Prod.fst).Nodup → jsSpread a b = a ++ b := by
  induction b with
  | nil =>
    intro a _ _
    show a = a ++ []
    rw [List.append_nil]
  | cons kv b ih =>
    intro a hfresh hnd
    show jsSpread (jsSetKey a kv.1 kv.2) b = a ++ kv :: b
    rw [jsSetKey_fresh a kv.1 kv.2
      (hfresh kv.1 (by simp))]
    rw [ih (a ++ [(kv.1, kv.2)]) ?_ ?_]
    · show a ++ [(kv.1, kv.2)] ++ b = _
      rw [List.append_assoc]
      simp
    · intro key hkey
      rw [List.map_append]
      simp only [List.mem_append, not_or]
      refine ⟨hfresh key (by simp [hkey]), ?_⟩
      simp only [List.map_cons, List.map_nil, List.mem_singleton]
      intro hkk
      have : (kv.1 :: b.map Prod.fst).Nodup := by simpa using hnd
      rw [List.nodup_cons] at this
      exact this.1 (hkk ▸ hkey)
    · have : (kv.1 :: b.map Prod.fst).Nodup := by simpa using hnd
      exact (List.nodup_cons.mp this).2

theorem jsObjGet_cons_ne (a : String × String) (l : List (String × String))
    (k : String) (h : ¬a.1 = k) : jsObjGet (a :: l) k = jsObjGet l k := by
  rw [jsObjGet, jsObjGet,
    List.find?_cons_of_neg _ (by simpa using h)]

theorem jsObjGet_cons_self (k v : String) (l : List (String × String)) :
    jsObjGet ((k, v) :: l) k = v := by
  rw [jsObjGet, List.find?_cons_of_pos _ (by simp)]
  rfl

theorem jsObjGet_append_not_mem (A : List (String × String))
    (rest : List (String × String)) (k : String) (h : k ∉ A.map Prod.fst) :
    jsObjGet (A ++ rest) k = jsObjGet rest k := by
  induction A with
  | nil => rfl
  | cons a A ih =>
    rw [List.cons_append, jsObjGet_cons_ne a _ k
      (fun hk => h (by simp [hk]))]
    exact ih (fun hk => h (List.mem_cons_of_mem _ hk))

theorem jsObjGet_middle_self (A B : List (String × String)) (k v : String)
    (h : k ∉ A.map Prod.fst) : jsObjGet (A ++ (k, v) :: B) k = v := by
  rw [jsObjGet_append_not_mem A _ k h, jsObjGet_cons_self]

theorem jsObjGet_middle_ne (A B : List (String × String))
    (k v v' key : String) (hne : ¬k = key) :
    jsObjGet (A ++ (k, v) :: B) key = jsObjGet (A ++ (k, v') :: B) key := by
  induction A with
  | nil =>
    rw [List.nil_append, List.nil_append, jsObjGet_cons_ne _ _ _ hne,
      jsObjGet_cons_ne _ _ _ hne]
  | cons a A ih =>
    rw [List.cons_append, List.cons_append]
    by_cases ha : a.1 = key
    · rw [jsObjGet, jsObjGet, List.find?_cons_of_pos _ (by simpa using ha),
        List.find?_cons_of_pos _ (by simpa using ha)]
    · rw [jsObjGet_cons_ne _ _ _ ha, jsObjGet_cons_ne _ _ _ ha, ih]

/-! ## The sort is a permutation -/

theorem insertSorted_perm (lt : String → String → Bool) (a : String)
    (l : List String) : List.Perm (insertSorted lt a l) (a :: l) := by
  induction l with
  | nil => exact List.Perm.refl _
  | cons b l ih =>
    simp only [insertSorted]
    split
    · exact List.Perm.refl _
    · exact (List.Perm.cons b ih).trans (List.Perm.swap a b l)

theorem sortJs_perm (lt : String → String → Bool) (l : List String) :
    List.Perm (sortJs lt l) l := by
  induction l with
  | nil => exact List.Perm.refl _
  | cons a l ih =>
    exact (insertSorted_perm lt a (sortJs lt l)).trans (List.Perm.cons a ih)

/-- With pairwise-distinct keys, the `sortedParams` string determines the
value of each parameter: two merged parameter lists that differ only in the
value at key `k` and produce the same joined string have the same value
there. -/
theorem sortedParams_value_determined
    (O front back : List (String × String)) (k v v' : String)
    (hnd : ((O ++ (front ++ (k, v) :: back)).map Prod.fst).Nodup)
    (heq : sortedParamsString (O ++ (front ++ (k, v) :: back)) =
      sortedParamsString (O ++ (front ++ (k, v') :: back))) : v = v' := by
  have hkeys : (O ++ (front ++ (k, v') :: back)).map Prod.fst =
      (O ++ (front ++ (k, v) :: back)).map Prod.fst := by simp
  simp only [sortedParamsString] at heq
  rw [hkeys] at heq
  have hk_mem : k ∈ (O ++ (front ++ (k, v) :: back)).map Prod.fst := by simp
  have hmemS : k ∈ sortJs jsStrLt
      ((O ++ (front ++ (k, v) :: back)).map Prod.fst) :=
    mem_sortJs.mpr hk_mem
  have hcount : (sortJs jsStrLt
      ((O ++ (front ++ (k, v) :: back)).map Prod.fst)).count k = 1 := by
    rw [(sortJs_perm _ _).count_eq]
    exact List.count_eq_one_of_mem hnd hk_mem
  obtain ⟨A, B, hAB⟩ := List.append_of_mem hmemS
  rw [hAB] at heq hcount
  rw [List.count_append, List.count_cons_self] at hcount
  have hkA : k ∉ A := List.count_eq_zero.mp (by omega)
  have hkB : k ∉ B := List.count_eq_zero.mp (by omega)
  have hsplit : (O ++ (front ++ (k, v) :: back)).map Prod.fst =
      ((O ++ front).map Prod.fst) ++ (k :: back.map Prod.fst) := by simp
  have hkOF : k ∉ (O ++ front).map Prod.fst := by
    have hnd2 := hnd
    rw [hsplit] at hnd2
    rcases List.nodup_append.mp hnd2 with ⟨-, -, hdisj⟩
    exact fun hk => hdisj hk (List.mem_cons_self _ _)
  have hv1 : jsObjGet (O ++ (front ++ (k, v) :: back)) k = v := by
    rw [show O ++ (front ++ (k, v) :: back) = (O ++ front) ++ (k, v) :: back
      from by rw [List.append_assoc]]
    exact jsObjGet_middle_self _ _ _ _ hkOF
  have hv2 : jsObjGet (O ++ (front ++ (k, v') :: back)) k = v' := by
    rw [show O ++ (front ++ (k, v') :: back) = (O ++ front) ++ (k, v') :: back
      from by rw [List.append_assoc]]
    exact jsObjGet_middle_self _ _ _ _ hkOF
  have hget : ∀ key, ¬k = key →
      jsObjGet (O ++ (front ++ (k, v) :: back)) key =
        jsObjGet (O ++ (front ++ (k, v') :: back)) key := by
    intro key hne
    rw [show O ++ (front ++ (k, v) :: back) = (O ++ front) ++ (k, v) :: back
        from by rw [List.append_assoc],
      show O ++ (front ++ (k, v') :: back) = (O ++ front) ++ (k, v') :: back
        from by rw [List.append_assoc]]
    exact jsObjGet_middle_ne _ _ _ _ _ _ hne
  simp only [List.map_append, List.map_cons] at heq
  have hA : A.map (fun key => percentEncode key ++ "=" ++
      percentEncode (jsObjGet (O ++ (front ++ (k, v) :: back)) key)) =
    A.map (fun key => percentEncode key ++ "=" ++
      percentEncode (jsObjGet (O ++ (front ++ (k, v') :: back)) key)) :=
    List.map_congr_left (fun key hkey => by
      show percentEncode key ++ "=" ++ _ = percentEncode key ++ "=" ++ _
      rw [hget key (fun h => hkA (h ▸ hkey))])
  have hB : B.map (fun key => percentEncode key ++ "=" ++
      percentEncode (jsObjGet (O ++ (front ++ (k, v) :: back)) key)) =
    B.map (fun key => percentEncode key ++ "=" ++
      percentEncode (jsObjGet (O ++ (front ++ (k, v') :: back)) key)) :=
    List.map_congr_left (fun key hkey => by
      show percentEncode key ++ "=" ++ _ = percentEncode key ++ "=" ++ _
      rw [hget key (fun h => hkB (h ▸ hkey))])
  rw [hA, hB] at heq
  have hmid := jsJoin_middle_inj "&" _ _ heq
  have hmid2 : percentEncode k ++ "=" ++
      percentEncode (jsObjGet (O ++ (front ++ (k, v) :: back)) k) =
    percentEncode k ++ "=" ++
      percentEncode (jsObjGet (O ++ (front ++ (k, v') :: back)) k) := hmid
  rw [hv1, hv2] at hmid2
  exact percentEncode_injective (str_append_cancel_left hmid2)

/-- C5 (amended): with timestamp and nonce fixed as inputs the header
computation is a pure function — two runs on identical inputs produce
byte-identical headers — and, provided the merged keys are pairwise
distinct, changing any single request parameter value changes the signature
base string that is signed (the 160-bit signature itself must collide for
some pair of values, as the counterexample shows). -/
theorem C5_signature_determinism_amended :
    (∀ sg method url params ts nonce,
      generateAuthHeader sg method url params ts nonce =
        generateAuthHeader sg method url params ts nonce) ∧
    (∀ (sg : OAuth1Signer) (method url ts nonce : String)
      (front back : List (String × String)) (k v v' : String),
      ((oauthParams sg ts nonce ++ (front ++ (k, v) :: back)).map
        Prod.fst).Nodup →
      v ≠ v' →
      signatureBaseString sg method url (front ++ (k, v) :: back) ts nonce ≠
        signatureBaseString sg method url (front ++ (k, v') :: back) ts
          nonce) := by
  refine ⟨fun sg method url params ts nonce => rfl, ?_⟩
  intro sg method url ts nonce front back k v v' hnd hne hbase
  apply hne
  have hmap : ((oauthParams sg ts nonce).map Prod.fst ++
      (front ++ (k, v) :: back).map Prod.fst).Nodup := by
    rw [← List.map_append]
    exact hnd
  rcases List.nodup_append.mp hmap with ⟨-, hndP, hdisj⟩
  have hkeq : (front ++ (k, v') :: back).map Prod.fst =
      (front ++ (k, v) :: back).map Prod.fst := by simp
  have hm1 : mergedParams sg ts nonce (front ++ (k, v) :: back) =
      oauthParams sg ts nonce ++ (front ++ (k, v) :: back) :=
    jsSpread_eq_append _ _ (fun key hk hO => hdisj hO hk) hndP
  have hm2 : mergedParams sg ts nonce (front ++ (k, v') :: back) =
      oauthParams sg ts nonce ++ (front ++ (k, v') :: back) :=
    jsSpread_eq_append _ _ (fun key hk hO => hdisj hO (hkeq ▸ hk))
      (hkeq ▸ hndP)
  have hb2 : (method.toUpper ++ "&" ++ percentEncode url ++ "&") ++
      percentEncode (sortedParamsString
        (mergedParams sg ts nonce (front ++ (k, v) :: back))) =
    (method.toUpper ++ "&" ++ percentEncode url ++ "&") ++
      percentEncode (sortedParamsString
        (mergedParams sg ts nonce (front ++ (k, v') :: back))) := hbase
  have hsp := percentEncode_injective (str_append_cancel_left hb2)
  rw [hm1, hm2] at hsp
  exact sortedParams_value_determined _ front back k v v' hnd hsp

/-- C5 witness: the amended theorem applied at a concrete request — the
keys `oauth_* ∪ {q}` are pairwise distinct, and changing `q` from `1` to
`2` changes the signature base string. -/
theorem C5_signature_determinism_amended_witness :
    ((oauthParams ⟨"ck", "cs", "tok", "tsec"⟩ "1" "n" ++
      ([] ++ ("q", "1") :: [])).map Prod.fst).Nodup ∧
    "1" ≠ "2" ∧
    signatureBaseString ⟨"ck", "cs", "tok", "tsec"⟩ "GET"
        "https://example.com" ([] ++ ("q", "1") :: []) "1" "n" ≠
      signatureBaseString ⟨"ck", "cs", "tok", "tsec"⟩ "GET"
        "https://example.com" ([] ++ ("q", "2") :: []) "1" "n" :=
  ⟨by decide, by decide,
    C5_signature_determinism_amended.2 ⟨"ck", "cs", "tok", "tsec"⟩ "GET"
      "https://example.com" "1" "n" [] [] "q" "1" "2" (by decide) (by decide)⟩

end IS24
